import Mathlib

/-!
Verification of the grid infection-spread simulator (`src/spread.py`).

The program offers two generator functions, `spread_lattice` and
`spread_torus`.  Both repeatedly yield the current infection grid, compute
the next grid by counting infected axis-aligned neighbours (`np.roll`
shift-and-add over every axis, with zero padding for the bounded lattice and
plain wrap-around for the torus), infect every cell whose count reaches the
threshold `m` (`np.where(weight >= m, 1, 0) | infected`), and stop — without
yielding — as soon as the newly computed grid is elementwise identical to
the current one.

The embedding models a numpy array as a shape (a list of axis sizes)
together with a valuation on multi-indices.  Cell values are `Nat` (the
program works with non-negative machine integers); the threshold is an `Int`
because a Python caller may pass a negative `m`.
-/

/-- All lists formed by consing an element of `js` onto a member of `rest`;
the building block for enumerating multi-indices. -/
def crossCons : List Nat → List (List Nat) → List (List Nat)
  | [], _ => []
  | j :: js, rest => rest.map (fun xs => j :: xs) ++ crossCons js rest

/-- All multi-indices of an N-dimensional grid of the given shape, in
row-major order — the cell order of a numpy array. -/
def allIdx : List Nat → List (List Nat)
  | [] => [[]]
  | n :: s => crossCons (List.range n) (allIdx s)

/-- A grid state: the shape of the numpy array together with its valuation
on multi-indices. -/
structure Grid where
  shape : List Nat
  val : List Nat → Nat

/-- Elementwise comparison of two valuations over every cell of shape `s`:
the embedding of `np.all(a == b)`. -/
def sameOn (s : List Nat) (f g : List Nat → Nat) : Bool :=
  (allIdx s).all (fun x => f x == g x)

/-- Contribution of axis `i` to the bounded (lattice) neighbour count at
cell `x`: the values one step down and one step up along axis `i`, an
off-grid neighbour contributing 0 — the zero-padding plus `np.roll`
computation of `spread_lattice`. -/
def latticeAxis (g : Grid) (i : Nat) (x : List Nat) : Nat :=
  (if 0 < x.getD i 0 then g.val (x.set i (x.getD i 0 - 1)) else 0) +
  (if x.getD i 0 + 1 < g.shape.getD i 0 then g.val (x.set i (x.getD i 0 + 1)) else 0)

/-- Contribution of axis `i` to the periodic (torus) neighbour count at
cell `x`: the values one step down and one step up along axis `i`, indices
wrapping around — the plain `np.roll` computation of `spread_torus`. -/
def torusAxis (g : Grid) (i : Nat) (x : List Nat) : Nat :=
  g.val (x.set i ((x.getD i 0 + (g.shape.getD i 0 - 1)) % g.shape.getD i 0)) +
  g.val (x.set i ((x.getD i 0 + 1) % g.shape.getD i 0))

/-- Bounded neighbour count: the `weight` array of `spread_lattice` at one
cell. -/
def latticeWeight (g : Grid) (x : List Nat) : Nat :=
  ∑ i ∈ Finset.range g.shape.length, latticeAxis g i x

/-- Periodic neighbour count: the `weight` array of `spread_torus` at one
cell. -/
def torusWeight (g : Grid) (x : List Nat) : Nat :=
  ∑ i ∈ Finset.range g.shape.length, torusAxis g i x

/-- One update of `spread_lattice`:
`infected = np.where(weight >= m, 1, 0) | infected`. -/
def stepL (m : Int) (g : Grid) : Grid :=
  ⟨g.shape, fun x => (if m ≤ (latticeWeight g x : Int) then 1 else 0) ||| g.val x⟩

/-- One update of `spread_torus`:
`infected = np.where(weight >= m, 1, 0) | infected`. -/
def stepT (m : Int) (g : Grid) : Grid :=
  ⟨g.shape, fun x => (if m ≤ (torusWeight g x : Int) then 1 else 0) ||| g.val x⟩

/-- Number of cells whose value already has its lowest bit set, so that a
further bitwise-or with 1 cannot change it.  Each non-converged update of
either generator strictly increases this count: the termination measure. -/
def fixedBit (g : Grid) : Nat :=
  (allIdx g.shape).countP (fun x => 1 ||| g.val x == g.val x)

lemma zero_lor_nat (n : Nat) : 0 ||| n = n := by simp

lemma one_lor_idem (v : Nat) : 1 ||| (1 ||| v) = 1 ||| v := by
  have h : (1 : Nat) ||| 1 = 1 := by decide
  rw [← Nat.lor_assoc, h]

lemma countP_le_of_imp {α : Type} (l : List α) (p q : α → Bool)
    (h : ∀ x ∈ l, p x = true → q x = true) : l.countP p ≤ l.countP q := by
  induction l with
  | nil => simp
  | cons a l ih =>
    rw [List.countP_cons, List.countP_cons]
    have hl : l.countP p ≤ l.countP q :=
      ih (fun x hx => h x (List.mem_cons_of_mem a hx))
    by_cases hp : p a = true
    · have hq : q a = true := h a (List.mem_cons_self a l) hp
      simp [hp, hq]; omega
    · have hp' : p a = false := by
        cases hpa : p a
        · rfl
        · exact absurd hpa hp
      simp [hp']
      split <;> omega

lemma countP_lt_of_imp {α : Type} (l : List α) (p q : α → Bool)
    (h : ∀ x ∈ l, p x = true → q x = true) (a : α) (ha : a ∈ l)
    (hpa : p a = false) (hqa : q a = true) : l.countP p < l.countP q := by
  induction l with
  | nil => cases ha
  | cons b l ih =>
    rw [List.countP_cons, List.countP_cons]
    have hl : l.countP p ≤ l.countP q :=
      countP_le_of_imp l p q (fun x hx => h x (List.mem_cons_of_mem b hx))
    rcases List.mem_cons.mp ha with hab | hal
    · subst hab
      simp [hpa, hqa]; omega
    · have hlt : l.countP p < l.countP q :=
        ih (fun x hx => h x (List.mem_cons_of_mem b hx)) hal
      by_cases hp : p b = true
      · have hq : q b = true := h b (List.mem_cons_self b l) hp
        simp [hp, hq]; omega
      · have hp' : p b = false := by
          cases hpb : p b
          · rfl
          · exact absurd hpb hp
        simp [hp']
        split <;> omega

lemma sameOn_false_exists {s : List Nat} {f g : List Nat → Nat}
    (h : sameOn s f g = false) : ∃ x ∈ allIdx s, f x ≠ g x := by
  unfold sameOn at h
  rcases List.all_eq_false.mp h with ⟨x, hx, hne⟩
  exact ⟨x, hx, by simpa using hne⟩

lemma fixedBit_lt_of_change (s : List Nat) (v b : List Nat → Nat)
    (hb : ∀ x, b x = 0 ∨ b x = 1)
    (h : sameOn s (fun x => b x ||| v x) v = false) :
    (allIdx s).countP (fun x => 1 ||| v x == v x) <
      (allIdx s).countP (fun x => 1 ||| (b x ||| v x) == (b x ||| v x)) := by
  rcases sameOn_false_exists h with ⟨a, ha, hne⟩
  have hba : b a = 1 := by
    rcases hb a with h0 | h1
    · exact absurd (by rw [h0, zero_lor_nat]) hne
    · exact h1
  refine countP_lt_of_imp _ _ _ ?_ a ha ?_ ?_
  · intro y _ hy
    rcases hb y with h0 | h1
    · rw [h0, zero_lor_nat]
      exact hy
    · rw [h1]
      exact beq_iff_eq.mpr (one_lor_idem (v y))
  · rw [hba] at hne
    exact beq_eq_false_iff_ne.mpr hne
  · rw [hba]
    exact beq_iff_eq.mpr (one_lor_idem (v a))

lemma fixedBit_lt_stepL (m : Int) (g : Grid)
    (h : sameOn g.shape (stepL m g).val g.val = false) :
    fixedBit g < fixedBit (stepL m g) := by
  refine fixedBit_lt_of_change g.shape g.val
    (fun x => if m ≤ (latticeWeight g x : Int) then 1 else 0) ?_ h
  intro x
  dsimp only
  split
  · right; rfl
  · left; rfl

lemma fixedBit_lt_stepT (m : Int) (g : Grid)
    (h : sameOn g.shape (stepT m g).val g.val = false) :
    fixedBit g < fixedBit (stepT m g) := by
  refine fixedBit_lt_of_change g.shape g.val
    (fun x => if m ≤ (torusWeight g x : Int) then 1 else 0) ?_ h
  intro x
  dsimp only
  split
  · right; rfl
  · left; rfl

lemma fixedBit_le_cells (g : Grid) : fixedBit g ≤ (allIdx g.shape).length :=
  List.countP_le_length _

/-- The full sequence of states yielded by the generator `spread_lattice`:
the current state is yielded first; the next state is then computed and, if
elementwise identical, iteration stops with nothing further yielded,
otherwise the loop continues from the next state. -/
def runL (m : Int) (g : Grid) : List Grid :=
  if sameOn g.shape (stepL m g).val g.val then [g]
  else g :: runL m (stepL m g)
termination_by (allIdx g.shape).length - fixedBit g
decreasing_by
  have hfalse : sameOn g.shape (stepL m g).val g.val = false := by
    cases hs : sameOn g.shape (stepL m g).val g.val
    · rfl
    · exact absurd hs ‹_›
  have h1 : fixedBit g < fixedBit (stepL m g) := fixedBit_lt_stepL m g hfalse
  have h2 : fixedBit (stepL m g) ≤ (allIdx g.shape).length := fixedBit_le_cells _
  show (allIdx g.shape).length - fixedBit (stepL m g) <
    (allIdx g.shape).length - fixedBit g
  omega

/-- The full sequence of states yielded by the generator `spread_torus`. -/
def runT (m : Int) (g : Grid) : List Grid :=
  if sameOn g.shape (stepT m g).val g.val then [g]
  else g :: runT m (stepT m g)
termination_by (allIdx g.shape).length - fixedBit g
decreasing_by
  have hfalse : sameOn g.shape (stepT m g).val g.val = false := by
    cases hs : sameOn g.shape (stepT m g).val g.val
    · rfl
    · exact absurd hs ‹_›
  have h1 : fixedBit g < fixedBit (stepT m g) := fixedBit_lt_stepT m g hfalse
  have h2 : fixedBit (stepT m g) ≤ (allIdx g.shape).length := fixedBit_le_cells _
  show (allIdx g.shape).length - fixedBit (stepT m g) <
    (allIdx g.shape).length - fixedBit g
  omega

lemma runL_rec (m : Int) (g : Grid) :
    runL m g = if sameOn g.shape (stepL m g).val g.val then [g]
      else g :: runL m (stepL m g) := by
  rw [runL]

lemma runT_rec (m : Int) (g : Grid) :
    runT m g = if sameOn g.shape (stepT m g).val g.val then [g]
      else g :: runT m (stepT m g) := by
  rw [runT]

/-- Total number of cells of a grid shape: the product of the axis sizes. -/
def totalCells (s : List Nat) : Nat := s.prod

lemma length_crossCons (js : List Nat) (rest : List (List Nat)) :
    (crossCons js rest).length = js.length * rest.length := by
  induction js with
  | nil => simp [crossCons]
  | cons j js ih =>
    simp [crossCons, ih]
    ring

lemma length_allIdx (s : List Nat) : (allIdx s).length = totalCells s := by
  induction s with
  | nil => simp [allIdx, totalCells]
  | cons n s ih =>
    simp [allIdx, length_crossCons, ih, totalCells]

lemma runL_head (m : Int) (g : Grid) : (runL m g).head? = some g := by
  rw [runL_rec]
  split <;> rfl

lemma runT_head (m : Int) (g : Grid) : (runT m g).head? = some g := by
  rw [runT_rec]
  split <;> rfl

lemma runL_ne_nil (m : Int) (g : Grid) : runL m g ≠ [] := by
  rw [runL_rec]
  split <;> simp

lemma runT_ne_nil (m : Int) (g : Grid) : runT m g ≠ [] := by
  rw [runT_rec]
  split <;> simp

lemma getLastD_congr {α : Type} (l : List α) (h : l ≠ []) (d1 d2 : α) :
    l.getLastD d1 = l.getLastD d2 := by
  cases l with
  | nil => exact absurd rfl h
  | cons a t => rw [List.getLastD_cons d1 a t, List.getLastD_cons d2 a t]

lemma runL_spec (m : Int) (g : Grid) :
    List.Chain' (fun a b => b = stepL m a ∧ sameOn a.shape (stepL m a).val a.val = false)
      (runL m g)
  ∧ sameOn ((runL m g).getLastD g).shape
      (stepL m ((runL m g).getLastD g)).val ((runL m g).getLastD g).val = true
  ∧ (runL m g).length + fixedBit g ≤ (allIdx g.shape).length + 1 := by
  have key : ∀ n : Nat, ∀ g : Grid, (allIdx g.shape).length - fixedBit g ≤ n →
      List.Chain' (fun a b => b = stepL m a ∧ sameOn a.shape (stepL m a).val a.val = false)
        (runL m g)
    ∧ sameOn ((runL m g).getLastD g).shape
        (stepL m ((runL m g).getLastD g)).val ((runL m g).getLastD g).val = true
    ∧ (runL m g).length + fixedBit g ≤ (allIdx g.shape).length + 1 := by
    intro n
    induction n using Nat.strong_induction_on with
    | _ n ih =>
      intro g hg
      by_cases hs : sameOn g.shape (stepL m g).val g.val = true
      · rw [runL_rec, if_pos hs]
        refine ⟨List.chain'_singleton g, ?_, ?_⟩
        · simpa using hs
        · have := fixedBit_le_cells g
          simp
          omega
      · have hs' : sameOn g.shape (stepL m g).val g.val = false := by
          cases hb : sameOn g.shape (stepL m g).val g.val
          · rfl
          · exact absurd hb hs
        have h1 : fixedBit g < fixedBit (stepL m g) := fixedBit_lt_stepL m g hs'
        have h2 : fixedBit (stepL m g) ≤ (allIdx g.shape).length := fixedBit_le_cells _
        have hsh : (stepL m g).shape = g.shape := rfl
        have hm : (allIdx (stepL m g).shape).length - fixedBit (stepL m g) < n := by
          rw [hsh]
          omega
        rcases ih _ hm (stepL m g) (le_refl _) with ⟨hchain, hlast, hlen⟩
        rw [runL_rec, if_neg hs]
        refine ⟨?_, ?_, ?_⟩
        · refine List.chain'_cons'.mpr ⟨?_, hchain⟩
          intro b hb
          rw [runL_head m (stepL m g)] at hb
          cases hb
          exact ⟨rfl, hs'⟩
        · rw [List.getLastD_cons,
            getLastD_congr (runL m (stepL m g)) (runL_ne_nil m (stepL m g)) g (stepL m g)]
          exact hlast
        · rw [hsh] at hlen
          simp only [List.length_cons]
          omega
  exact key ((allIdx g.shape).length - fixedBit g) g (le_refl _)

lemma runT_spec (m : Int) (g : Grid) :
    List.Chain' (fun a b => b = stepT m a ∧ sameOn a.shape (stepT m a).val a.val = false)
      (runT m g)
  ∧ sameOn ((runT m g).getLastD g).shape
      (stepT m ((runT m g).getLastD g)).val ((runT m g).getLastD g).val = true
  ∧ (runT m g).length + fixedBit g ≤ (allIdx g.shape).length + 1 := by
  have key : ∀ n : Nat, ∀ g : Grid, (allIdx g.shape).length - fixedBit g ≤ n →
      List.Chain' (fun a b => b = stepT m a ∧ sameOn a.shape (stepT m a).val a.val = false)
        (runT m g)
    ∧ sameOn ((runT m g).getLastD g).shape
        (stepT m ((runT m g).getLastD g)).val ((runT m g).getLastD g).val = true
    ∧ (runT m g).length + fixedBit g ≤ (allIdx g.shape).length + 1 := by
    intro n
    induction n using Nat.strong_induction_on with
    | _ n ih =>
      intro g hg
      by_cases hs : sameOn g.shape (stepT m g).val g.val = true
      · rw [runT_rec, if_pos hs]
        refine ⟨List.chain'_singleton g, ?_, ?_⟩
        · simpa using hs
        · have := fixedBit_le_cells g
          simp
          omega
      · have hs' : sameOn g.shape (stepT m g).val g.val = false := by
          cases hb : sameOn g.shape (stepT m g).val g.val
          · rfl
          · exact absurd hb hs
        have h1 : fixedBit g < fixedBit (stepT m g) := fixedBit_lt_stepT m g hs'
        have h2 : fixedBit (stepT m g) ≤ (allIdx g.shape).length := fixedBit_le_cells _
        have hsh : (stepT m g).shape = g.shape := rfl
        have hm : (allIdx (stepT m g).shape).length - fixedBit (stepT m g) < n := by
          rw [hsh]
          omega
        rcases ih _ hm (stepT m g) (le_refl _) with ⟨hchain, hlast, hlen⟩
        rw [runT_rec, if_neg hs]
        refine ⟨?_, ?_, ?_⟩
        · refine List.chain'_cons'.mpr ⟨?_, hchain⟩
          intro b hb
          rw [runT_head m (stepT m g)] at hb
          cases hb
          exact ⟨rfl, hs'⟩
        · rw [List.getLastD_cons,
            getLastD_congr (runT m (stepT m g)) (runT_ne_nil m (stepT m g)) g (stepT m g)]
          exact hlast
        · rw [hsh] at hlen
          simp only [List.length_cons]
          omega
  exact key ((allIdx g.shape).length - fixedBit g) g (le_refl _)

/-- Validity of a multi-index for a shape: same dimensionality, each
coordinate below the corresponding axis size. -/
def Valid : List Nat → List Nat → Prop
  | [], [] => True
  | n :: s, j :: xs => j < n ∧ Valid s xs
  | _, _ => False

lemma valid_cons_iff (n j : Nat) (s xs : List Nat) :
    Valid (n :: s) (j :: xs) ↔ j < n ∧ Valid s xs := Iff.rfl

lemma not_valid_cons_nil (n : Nat) (s : List Nat) : ¬ Valid (n :: s) [] := fun h => h

lemma mem_crossCons (x : List Nat) (js : List Nat) (rest : List (List Nat)) :
    x ∈ crossCons js rest ↔ ∃ j ∈ js, ∃ xs ∈ rest, x = j :: xs := by
  induction js with
  | nil => simp [crossCons]
  | cons j js ih =>
    simp only [crossCons, List.mem_append, List.mem_map, ih, List.mem_cons]
    constructor
    · rintro (⟨xs, hxs, rfl⟩ | ⟨j', hj', xs, hxs, rfl⟩)
      · exact ⟨j, Or.inl rfl, xs, hxs, rfl⟩
      · exact ⟨j', Or.inr hj', xs, hxs, rfl⟩
    · rintro ⟨j', hj', xs, hxs, rfl⟩
      rcases hj' with rfl | hj'
      · exact Or.inl ⟨xs, hxs, rfl⟩
      · exact Or.inr ⟨j', hj', xs, hxs, rfl⟩

lemma mem_allIdx (s x : List Nat) : x ∈ allIdx s ↔ Valid s x := by
  induction s generalizing x with
  | nil =>
    cases x with
    | nil => simp [allIdx, Valid]
    | cons j xs =>
      simp only [allIdx, List.mem_singleton]
      constructor
      · intro h
        cases h
      · intro h
        exact absurd h (fun h => h)
  | cons n s ih =>
    rw [allIdx, mem_crossCons]
    constructor
    · rintro ⟨j, hj, xs, hxs, rfl⟩
      exact (valid_cons_iff n j s xs).mpr ⟨List.mem_range.mp hj, (ih xs).mp hxs⟩
    · intro hv
      cases x with
      | nil => exact absurd hv (not_valid_cons_nil n s)
      | cons j xs =>
        rcases (valid_cons_iff n j s xs).mp hv with ⟨hj, hxs⟩
        exact ⟨j, List.mem_range.mpr hj, xs, (ih xs).mpr hxs, rfl⟩

lemma valid_getD {s x : List Nat} (h : Valid s x) {i : Nat} (hi : i < s.length) :
    x.getD i 0 < s.getD i 0 := by
  induction s generalizing x i with
  | nil => cases hi
  | cons n s ih =>
    cases x with
    | nil => exact absurd h (not_valid_cons_nil n s)
    | cons j xs =>
      rcases (valid_cons_iff n j s xs).mp h with ⟨hj, hxs⟩
      cases i with
      | zero => exact hj
      | succ i => exact ih hxs (Nat.lt_of_succ_lt_succ hi)

lemma valid_set {s x : List Nat} (h : Valid s x) {i v : Nat}
    (hv : v < s.getD i 0) : Valid s (x.set i v) := by
  induction s generalizing x i with
  | nil =>
    cases x with
    | nil => simpa using h
    | cons j xs => exact absurd h (fun h => h)
  | cons n s ih =>
    cases x with
    | nil => exact absurd h (not_valid_cons_nil n s)
    | cons j xs =>
      rcases (valid_cons_iff n j s xs).mp h with ⟨hj, hxs⟩
      cases i with
      | zero => exact (valid_cons_iff n v s xs).mpr ⟨hv, hxs⟩
      | succ i =>
        exact (valid_cons_iff n j s (xs.set i v)).mpr ⟨hj, ih hxs hv⟩

lemma set_mem_allIdx {s x : List Nat} (hx : x ∈ allIdx s) {i v : Nat}
    (hv : v < s.getD i 0) : x.set i v ∈ allIdx s :=
  (mem_allIdx s _).mpr (valid_set ((mem_allIdx s x).mp hx) hv)

/-- All cells of the grid hold 0 or 1: the well-formed initial states the
specification describes. -/
def binaryOn (g : Grid) : Prop := ∀ x ∈ allIdx g.shape, g.val x = 0 ∨ g.val x = 1

lemma lor_bin {a v : Nat} (ha : a = 0 ∨ a = 1) (hv : v = 0 ∨ v = 1) :
    a ||| v = 0 ∨ a ||| v = 1 := by
  rcases ha with rfl | rfl <;> rcases hv with rfl | rfl <;> decide

lemma lor_bin_mono {a b u v : Nat} (ha : a = 0 ∨ a = 1) (hb : b = 0 ∨ b = 1)
    (hu : u = 0 ∨ u = 1) (hv : v = 0 ∨ v = 1) (hab : a ≤ b) (huv : u ≤ v) :
    a ||| u ≤ b ||| v := by
  rcases ha with rfl | rfl <;> rcases hb with rfl | rfl <;>
    rcases hu with rfl | rfl <;> rcases hv with rfl | rfl <;>
    first
      | decide
      | exact absurd hab (by decide)
      | exact absurd huv (by decide)

lemma ite_bin (c : Prop) [Decidable c] :
    (if c then (1 : Nat) else 0) = 0 ∨ (if c then (1 : Nat) else 0) = 1 := by
  split
  · right; rfl
  · left; rfl

lemma stepL_val (m : Int) (g : Grid) (x : List Nat) :
    (stepL m g).val x = (if m ≤ (latticeWeight g x : Int) then 1 else 0) ||| g.val x := rfl

lemma stepT_val (m : Int) (g : Grid) (x : List Nat) :
    (stepT m g).val x = (if m ≤ (torusWeight g x : Int) then 1 else 0) ||| g.val x := rfl

lemma binaryOn_stepL (m : Int) {g : Grid} (hb : binaryOn g) : binaryOn (stepL m g) := by
  intro x hx
  rw [stepL_val]
  exact lor_bin (ite_bin _) (hb x hx)

lemma binaryOn_stepT (m : Int) {g : Grid} (hb : binaryOn g) : binaryOn (stepT m g) := by
  intro x hx
  rw [stepT_val]
  exact lor_bin (ite_bin _) (hb x hx)

lemma latticeWeight_mono (g h : Grid) (hs : g.shape = h.shape)
    (hv : ∀ y ∈ allIdx g.shape, g.val y ≤ h.val y)
    (x : List Nat) (hx : x ∈ allIdx g.shape) :
    latticeWeight g x ≤ latticeWeight h x := by
  unfold latticeWeight
  rw [← hs]
  apply Finset.sum_le_sum
  intro i hi
  have hil : i < g.shape.length := List.mem_range.mp hi
  have hgd : x.getD i 0 < g.shape.getD i 0 :=
    valid_getD ((mem_allIdx _ _).mp hx) hil
  unfold latticeAxis
  rw [← hs]
  apply Nat.add_le_add
  · split
    · exact hv _ (set_mem_allIdx hx (by omega))
    · exact le_refl 0
  · split
    · next hlt => exact hv _ (set_mem_allIdx hx hlt)
    · exact le_refl 0

lemma torusWeight_mono (g h : Grid) (hs : g.shape = h.shape)
    (hv : ∀ y ∈ allIdx g.shape, g.val y ≤ h.val y)
    (x : List Nat) (hx : x ∈ allIdx g.shape) :
    torusWeight g x ≤ torusWeight h x := by
  unfold torusWeight
  rw [← hs]
  apply Finset.sum_le_sum
  intro i hi
  have hil : i < g.shape.length := List.mem_range.mp hi
  have hgd : x.getD i 0 < g.shape.getD i 0 :=
    valid_getD ((mem_allIdx _ _).mp hx) hil
  have hpos : 0 < g.shape.getD i 0 := by omega
  unfold torusAxis
  rw [← hs]
  apply Nat.add_le_add
  · exact hv _ (set_mem_allIdx hx (Nat.mod_lt _ hpos))
  · exact hv _ (set_mem_allIdx hx (Nat.mod_lt _ hpos))

lemma latticeWeight_le_torusWeight (g : Grid) (x : List Nat)
    (hx : x ∈ allIdx g.shape) : latticeWeight g x ≤ torusWeight g x := by
  unfold latticeWeight torusWeight
  apply Finset.sum_le_sum
  intro i hi
  have hil : i < g.shape.length := List.mem_range.mp hi
  have hgd : x.getD i 0 < g.shape.getD i 0 :=
    valid_getD ((mem_allIdx _ _).mp hx) hil
  unfold latticeAxis torusAxis
  apply Nat.add_le_add
  · split
    · next h0 =>
      have heq : (x.getD i 0 + (g.shape.getD i 0 - 1)) % g.shape.getD i 0
          = x.getD i 0 - 1 := by
        have hrw : x.getD i 0 + (g.shape.getD i 0 - 1)
            = (x.getD i 0 - 1) + 1 * g.shape.getD i 0 := by omega
        rw [hrw, Nat.add_mul_mod_self_right, Nat.mod_eq_of_lt (by omega)]
      rw [heq]
    · exact Nat.zero_le _
  · split
    · next h1 =>
      rw [Nat.mod_eq_of_lt h1]
    · exact Nat.zero_le _

lemma stepL_mono (m : Int) (g h : Grid) (hs : g.shape = h.shape)
    (hbg : binaryOn g) (hbh : binaryOn h)
    (hv : ∀ y ∈ allIdx g.shape, g.val y ≤ h.val y)
    (x : List Nat) (hx : x ∈ allIdx g.shape) :
    (stepL m g).val x ≤ (stepL m h).val x := by
  rw [stepL_val, stepL_val]
  have hw : latticeWeight g x ≤ latticeWeight h x := latticeWeight_mono g h hs hv x hx
  have hhx : x ∈ allIdx h.shape := by rw [← hs]; exact hx
  refine lor_bin_mono (ite_bin _) (ite_bin _) (hbg x hx) (hbh x hhx) ?_ (hv x hx)
  split
  · next hm =>
    have : m ≤ (latticeWeight h x : Int) := le_trans hm (Int.ofNat_le.mpr hw)
    rw [if_pos this]
  · exact Nat.zero_le _

lemma stepT_mono (m : Int) (g h : Grid) (hs : g.shape = h.shape)
    (hbg : binaryOn g) (hbh : binaryOn h)
    (hv : ∀ y ∈ allIdx g.shape, g.val y ≤ h.val y)
    (x : List Nat) (hx : x ∈ allIdx g.shape) :
    (stepT m g).val x ≤ (stepT m h).val x := by
  rw [stepT_val, stepT_val]
  have hw : torusWeight g x ≤ torusWeight h x := torusWeight_mono g h hs hv x hx
  have hhx : x ∈ allIdx h.shape := by rw [← hs]; exact hx
  refine lor_bin_mono (ite_bin _) (ite_bin _) (hbg x hx) (hbh x hhx) ?_ (hv x hx)
  split
  · next hm =>
    have : m ≤ (torusWeight h x : Int) := le_trans hm (Int.ofNat_le.mpr hw)
    rw [if_pos this]
  · exact Nat.zero_le _

lemma stepL_le_stepT (m : Int) (g : Grid) (hb : binaryOn g)
    (x : List Nat) (hx : x ∈ allIdx g.shape) :
    (stepL m g).val x ≤ (stepT m g).val x := by
  rw [stepL_val, stepT_val]
  have hw : latticeWeight g x ≤ torusWeight g x := latticeWeight_le_torusWeight g x hx
  refine lor_bin_mono (ite_bin _) (ite_bin _) (hb x hx) (hb x hx) ?_ (le_refl _)
  split
  · next hm =>
    have : m ≤ (torusWeight g x : Int) := le_trans hm (Int.ofNat_le.mpr hw)
    rw [if_pos this]
  · exact Nat.zero_le _

lemma stepL_anti_m (m1 m2 : Int) (hm : m1 ≤ m2) (g : Grid) (hb : binaryOn g)
    (x : List Nat) (hx : x ∈ allIdx g.shape) :
    (stepL m2 g).val x ≤ (stepL m1 g).val x := by
  rw [stepL_val, stepL_val]
  refine lor_bin_mono (ite_bin _) (ite_bin _) (hb x hx) (hb x hx) ?_ (le_refl _)
  split
  · next h2 => rw [if_pos (le_trans hm h2)]
  · exact Nat.zero_le _

lemma stepT_anti_m (m1 m2 : Int) (hm : m1 ≤ m2) (g : Grid) (hb : binaryOn g)
    (x : List Nat) (hx : x ∈ allIdx g.shape) :
    (stepT m2 g).val x ≤ (stepT m1 g).val x := by
  rw [stepT_val, stepT_val]
  refine lor_bin_mono (ite_bin _) (ite_bin _) (hb x hx) (hb x hx) ?_ (le_refl _)
  split
  · next h2 => rw [if_pos (le_trans hm h2)]
  · exact Nat.zero_le _

lemma iterate_le_iterate (F G : Grid → Grid)
    (hFsh : ∀ g, (F g).shape = g.shape) (hGsh : ∀ g, (G g).shape = g.shape)
    (hFbin : ∀ g, binaryOn g → binaryOn (F g))
    (hGbin : ∀ g, binaryOn g → binaryOn (G g))
    (hGmono : ∀ g h, g.shape = h.shape → binaryOn g → binaryOn h →
      (∀ y ∈ allIdx g.shape, g.val y ≤ h.val y) →
      ∀ x ∈ allIdx g.shape, (G g).val x ≤ (G h).val x)
    (hFG : ∀ g, binaryOn g → ∀ x ∈ allIdx g.shape, (F g).val x ≤ (G g).val x)
    (g : Grid) (hb : binaryOn g) (k : Nat) :
    (F^[k] g).shape = g.shape ∧ (G^[k] g).shape = g.shape ∧
    binaryOn (F^[k] g) ∧ binaryOn (G^[k] g) ∧
    ∀ x ∈ allIdx g.shape, (F^[k] g).val x ≤ (G^[k] g).val x := by
  induction k with
  | zero =>
    refine ⟨rfl, rfl, hb, hb, ?_⟩
    intro x _
    exact le_refl _
  | succ k ih =>
    rcases ih with ⟨hsF, hsG, hbF, hbG, hle⟩
    rw [Function.iterate_succ_apply', Function.iterate_succ_apply']
    refine ⟨by rw [hFsh, hsF], by rw [hGsh, hsG], hFbin _ hbF, hGbin _ hbG, ?_⟩
    intro x hx
    have hxF : x ∈ allIdx (F^[k] g).shape := by rw [hsF]; exact hx
    have step1 : (F (F^[k] g)).val x ≤ (G (F^[k] g)).val x := hFG _ hbF x hxF
    have step2 : (G (F^[k] g)).val x ≤ (G (G^[k] g)).val x := by
      refine hGmono _ _ (by rw [hsF, hsG]) hbF hbG ?_ x hxF
      intro y hy
      rw [hsF] at hy
      exact hle y hy
    exact le_trans step1 step2

lemma sameOn_true_iff (s : List Nat) (f g : List Nat → Nat) :
    sameOn s f g = true ↔ ∀ x ∈ allIdx s, f x = g x := by
  unfold sameOn
  rw [List.all_eq_true]
  constructor
  · intro h x hx
    exact beq_iff_eq.mp (h x hx)
  · intro h x hx
    exact beq_iff_eq.mpr (h x hx)

lemma sameOn_false_of_exists {s : List Nat} {f g : List Nat → Nat}
    (h : ∃ x ∈ allIdx s, f x ≠ g x) : sameOn s f g = false := by
  rcases h with ⟨x, hx, hne⟩
  unfold sameOn
  exact List.all_eq_false.mpr ⟨x, hx, by simpa using hne⟩

lemma lor_one_eq_one {a : Nat} (ha : a = 0 ∨ a = 1) : a ||| 1 = 1 := by
  rcases ha with rfl | rfl <;> decide

lemma one_lor_bin {v : Nat} (hv : v = 0 ∨ v = 1) : 1 ||| v = 1 := by
  rcases hv with rfl | rfl <;> decide

/-- C1: for every initial grid and threshold, both `spread_lattice` and
`spread_torus` yield the initial state as the first produced value; every
produced state is followed (if anything follows) by its update, and it is
followed only when that update differs from it elementwise; and the last
produced state is exactly the one whose update is elementwise identical to
it — the identical state is computed but never emitted. -/
theorem claim_c1 (m : Int) (g : Grid) :
    ((runL m g).head? = some g ∧ (runT m g).head? = some g)
  ∧ (List.Chain' (fun a b => b = stepL m a ∧ sameOn a.shape (stepL m a).val a.val = false)
      (runL m g)
    ∧ List.Chain' (fun a b => b = stepT m a ∧ sameOn a.shape (stepT m a).val a.val = false)
      (runT m g))
  ∧ (sameOn ((runL m g).getLastD g).shape
      (stepL m ((runL m g).getLastD g)).val ((runL m g).getLastD g).val = true
    ∧ sameOn ((runT m g).getLastD g).shape
      (stepT m ((runT m g).getLastD g)).val ((runT m g).getLastD g).val = true) := by
  rcases runL_spec m g with ⟨hcL, hlL, _⟩
  rcases runT_spec m g with ⟨hcT, hlT, _⟩
  exact ⟨⟨runL_head m g, runT_head m g⟩, ⟨hcL, hcT⟩, hlL, hlT⟩

/-- C2: across the sequences produced by both generators, every cell that
holds 1 in a produced state still holds 1 in the next produced state —
infection is monotone non-decreasing along the whole sequence, for every
initial grid, every shape and every threshold. -/
theorem claim_c2 (m : Int) (g : Grid) :
    List.Chain' (fun a b => ∀ x, a.val x = 1 → b.val x = 1) (runL m g)
  ∧ List.Chain' (fun a b => ∀ x, a.val x = 1 → b.val x = 1) (runT m g) := by
  constructor
  · refine (runL_spec m g).1.imp ?_
    rintro a b ⟨rfl, -⟩ x hx1
    rw [stepL_val, hx1]
    exact lor_one_eq_one (ite_bin _)
  · refine (runT_spec m g).1.imp ?_
    rintro a b ⟨rfl, -⟩ x hx1
    rw [stepT_val, hx1]
    exact lor_one_eq_one (ite_bin _)

/-- C3: the sequences produced by both generators are finite lists whose
length is at most the total number of cells of the grid plus one. -/
theorem claim_c3 (m : Int) (g : Grid) :
    (runL m g).length ≤ totalCells g.shape + 1
  ∧ (runT m g).length ≤ totalCells g.shape + 1 := by
  have hL := (runL_spec m g).2.2
  have hT := (runT_spec m g).2.2
  rw [length_allIdx] at hL hT
  constructor <;> omega

/-- C7: for both boundary policies, applying one more update step to the
last produced state yields a state elementwise identical to it — the final
produced state is a fixpoint of the update function. -/
theorem claim_c7 (m : Int) (g : Grid) :
    sameOn ((runL m g).getLastD g).shape
      (stepL m ((runL m g).getLastD g)).val ((runL m g).getLastD g).val = true
  ∧ sameOn ((runT m g).getLastD g).shape
      (stepT m ((runT m g).getLastD g)).val ((runT m g).getLastD g).val = true :=
  ⟨(runL_spec m g).2.1, (runT_spec m g).2.1⟩

lemma set_self_of_getD {x : List Nat} {i : Nat} (h : x.getD i 0 = 0) :
    x.set i 0 = x := by
  induction x generalizing i with
  | nil => rfl
  | cons a t ih =>
    cases i with
    | zero =>
      simp only [List.getD_cons_zero] at h
      rw [h]
      rfl
    | succ i =>
      simp only [List.getD_cons_succ] at h
      simp only [List.set_cons_succ]
      rw [ih h]

/-- C6: along an axis of size 1, the periodic neighbour count of
`spread_torus` takes both the negative and the positive neighbour to be the
cell itself, so that axis contributes exactly twice the cell's own value —
self-neighbouring is reproduced, not special-cased away. -/
theorem claim_c6 (g : Grid) (i : Nat) (x : List Nat) (hx : x ∈ allIdx g.shape)
    (hi : i < g.shape.length) (h1 : g.shape.getD i 0 = 1) :
    torusAxis g i x = 2 * g.val x := by
  have hxi : x.getD i 0 < g.shape.getD i 0 := valid_getD ((mem_allIdx _ _).mp hx) hi
  have hx0 : x.getD i 0 = 0 := by omega
  unfold torusAxis
  rw [h1, hx0]
  norm_num
  rw [set_self_of_getD hx0]
  omega

/-- Witness for C6 at the concrete shape [1, 3], cell [0, 1]. -/
theorem claim_c6_witness :
    [0, 1] ∈ allIdx (Grid.mk [1, 3] (fun x => if x = [0, 1] then 1 else 0)).shape
  ∧ 0 < (Grid.mk [1, 3] (fun x => if x = [0, 1] then 1 else 0)).shape.length
  ∧ (Grid.mk [1, 3] (fun x => if x = [0, 1] then 1 else 0)).shape.getD 0 0 = 1
  ∧ torusAxis (Grid.mk [1, 3] (fun x => if x = [0, 1] then 1 else 0)) 0 [0, 1]
      = 2 * (Grid.mk [1, 3] (fun x => if x = [0, 1] then 1 else 0)).val [0, 1] :=
  ⟨by decide, by decide, by decide,
    claim_c6 (Grid.mk [1, 3] (fun x => if x = [0, 1] then 1 else 0)) 0 [0, 1]
      (by decide) (by decide) (by decide)⟩

/-- C9: cell by cell and step by step, the bounded (lattice) spread is
dominated by the periodic (torus) spread — every cell infected in the k-th
iterate of the lattice update is infected in the k-th iterate of the torus
update on the same binary initial grid. -/
theorem claim_c9 (m : Int) (g : Grid) (hb : binaryOn g) (k : Nat) (x : List Nat)
    (hx : x ∈ allIdx g.shape) (h1 : ((stepL m)^[k] g).val x = 1) :
    ((stepT m)^[k] g).val x = 1 := by
  rcases iterate_le_iterate (stepL m) (stepT m) (fun g => rfl) (fun g => rfl)
    (fun g hb => binaryOn_stepL m hb) (fun g hb => binaryOn_stepT m hb)
    (stepT_mono m) (stepL_le_stepT m) g hb k with ⟨-, hsG, -, hbG, hle⟩
  have hle1 := hle x hx
  rw [h1] at hle1
  have hxG : x ∈ allIdx ((stepT m)^[k] g).shape := by rw [hsG]; exact hx
  rcases hbG x hxG with h0 | hone
  · rw [h0] at hle1
    cases hle1
  · exact hone

/-- Witness for C9: shape [2], initial [1, 0], m = 1, k = 1, cell [1]. -/
theorem claim_c9_witness :
    binaryOn (Grid.mk [2] (fun x => if x = [0] then 1 else 0))
  ∧ [1] ∈ allIdx (Grid.mk [2] (fun x => if x = [0] then 1 else 0)).shape
  ∧ ((stepL 1)^[1] (Grid.mk [2] (fun x => if x = [0] then 1 else 0))).val [1] = 1
  ∧ ((stepT 1)^[1] (Grid.mk [2] (fun x => if x = [0] then 1 else 0))).val [1] = 1 :=
  ⟨by unfold binaryOn; decide, by decide, by decide,
    claim_c9 1 (Grid.mk [2] (fun x => if x = [0] then 1 else 0))
      (by unfold binaryOn; decide) 1 [1] (by decide) (by decide)⟩

/-- C10: the spread is antitone in the threshold: if m1 is at most m2, then
every cell infected in the k-th iterate of the update with threshold m2 is
infected in the k-th iterate with threshold m1, under either boundary
policy. -/
theorem claim_c10 (m1 m2 : Int) (hm : m1 ≤ m2) (g g' : Grid)
    (hb : binaryOn g) (hb' : binaryOn g') (k k' : Nat) (x x' : List Nat)
    (hx : x ∈ allIdx g.shape) (hx' : x' ∈ allIdx g'.shape)
    (hL : ((stepL m2)^[k] g).val x = 1) (hT : ((stepT m2)^[k'] g').val x' = 1) :
    ((stepL m1)^[k] g).val x = 1 ∧ ((stepT m1)^[k'] g').val x' = 1 := by
  constructor
  · rcases iterate_le_iterate (stepL m2) (stepL m1) (fun g => rfl) (fun g => rfl)
      (fun g hb => binaryOn_stepL m2 hb) (fun g hb => binaryOn_stepL m1 hb)
      (stepL_mono m1) (fun g hb x hx => stepL_anti_m m1 m2 hm g hb x hx)
      g hb k with ⟨-, hsG, -, hbG, hle⟩
    have hle1 := hle x hx
    rw [hL] at hle1
    have hxG : x ∈ allIdx ((stepL m1)^[k] g).shape := by rw [hsG]; exact hx
    rcases hbG x hxG with h0 | hone
    · rw [h0] at hle1
      cases hle1
    · exact hone
  · rcases iterate_le_iterate (stepT m2) (stepT m1) (fun g => rfl) (fun g => rfl)
      (fun g hb => binaryOn_stepT m2 hb) (fun g hb => binaryOn_stepT m1 hb)
      (stepT_mono m1) (fun g hb x hx => stepT_anti_m m1 m2 hm g hb x hx)
      g' hb' k' with ⟨-, hsG, -, hbG, hle⟩
    have hle1 := hle x' hx'
    rw [hT] at hle1
    have hxG : x' ∈ allIdx ((stepT m1)^[k'] g').shape := by rw [hsG]; exact hx'
    rcases hbG x' hxG with h0 | hone
    · rw [h0] at hle1
      cases hle1
    · exact hone

/-- Witness for C10: shape [3], initial [1, 0, 1], thresholds 1 and 2,
k = 1, cell [1]. -/
theorem claim_c10_witness :
    (1 : Int) ≤ 2
  ∧ binaryOn (Grid.mk [3] (fun x => if x = [1] then 0 else 1))
  ∧ [1] ∈ allIdx (Grid.mk [3] (fun x => if x = [1] then 0 else 1)).shape
  ∧ ((stepL 2)^[1] (Grid.mk [3] (fun x => if x = [1] then 0 else 1))).val [1] = 1
  ∧ ((stepT 2)^[1] (Grid.mk [3] (fun x => if x = [1] then 0 else 1))).val [1] = 1
  ∧ ((stepL 1)^[1] (Grid.mk [3] (fun x => if x = [1] then 0 else 1))).val [1] = 1
  ∧ ((stepT 1)^[1] (Grid.mk [3] (fun x => if x = [1] then 0 else 1))).val [1] = 1 :=
  ⟨by decide, by unfold binaryOn; decide, by decide, by decide, by decide,
    (claim_c10 1 2 (by decide) (Grid.mk [3] (fun x => if x = [1] then 0 else 1))
      (Grid.mk [3] (fun x => if x = [1] then 0 else 1)) (by unfold binaryOn; decide)
      (by unfold binaryOn; decide) 1 1 [1] [1]
      (by decide) (by decide) (by decide) (by decide)).1,
    (claim_c10 1 2 (by decide) (Grid.mk [3] (fun x => if x = [1] then 0 else 1))
      (Grid.mk [3] (fun x => if x = [1] then 0 else 1)) (by unfold binaryOn; decide)
      (by unfold binaryOn; decide) 1 1 [1] [1]
      (by decide) (by decide) (by decide) (by decide)).2⟩

lemma stepL_val_one_of_nonpos (m : Int) (hm : m ≤ 0) {g : Grid} (hb : binaryOn g)
    (x : List Nat) (hx : x ∈ allIdx g.shape) : (stepL m g).val x = 1 := by
  rw [stepL_val]
  rw [if_pos (le_trans hm (Int.ofNat_nonneg _))]
  exact one_lor_bin (hb x hx)

lemma stepT_val_one_of_nonpos (m : Int) (hm : m ≤ 0) {g : Grid} (hb : binaryOn g)
    (x : List Nat) (hx : x ∈ allIdx g.shape) : (stepT m g).val x = 1 := by
  rw [stepT_val]
  rw [if_pos (le_trans hm (Int.ofNat_nonneg _))]
  exact one_lor_bin (hb x hx)

lemma crossCons_nil (js : List Nat) : crossCons js [] = [] := by
  induction js with
  | nil => rfl
  | cons j js ih => simp [crossCons, ih]

lemma allIdx_nil_of_zero {s : List Nat} (h : 0 ∈ s) : allIdx s = [] := by
  induction s with
  | nil => cases h
  | cons n s ih =>
    rcases List.mem_cons.mp h with h0 | hs
    · rw [allIdx, ← h0]
      rfl
    · rw [allIdx, ih hs, crossCons_nil]

/-- C5: with threshold 0, under either boundary policy, a binary grid with
some uninfected cell produces exactly two states — the initial state and
then the all-infected state — while an already all-infected grid produces
exactly one state. -/
theorem claim_c5 (g h : Grid) (hbg : binaryOn g)
    (hg0 : ∃ x ∈ allIdx g.shape, g.val x = 0)
    (hh1 : ∀ x ∈ allIdx h.shape, h.val x = 1) :
    (runL 0 g = [g, stepL 0 g] ∧ runT 0 g = [g, stepT 0 g]
      ∧ (∀ x ∈ allIdx g.shape, (stepL 0 g).val x = 1)
      ∧ (∀ x ∈ allIdx g.shape, (stepT 0 g).val x = 1))
  ∧ (runL 0 h = [h] ∧ runT 0 h = [h]) := by
  have hallL : ∀ x ∈ allIdx g.shape, (stepL 0 g).val x = 1 :=
    stepL_val_one_of_nonpos 0 (le_refl 0) hbg
  have hallT : ∀ x ∈ allIdx g.shape, (stepT 0 g).val x = 1 :=
    stepT_val_one_of_nonpos 0 (le_refl 0) hbg
  rcases hg0 with ⟨x0, hx0, hx0v⟩
  have hbh : binaryOn h := fun x hx => Or.inr (hh1 x hx)
  refine ⟨⟨?_, ?_, hallL, hallT⟩, ?_, ?_⟩
  · have hfalse : sameOn g.shape (stepL 0 g).val g.val = false :=
      sameOn_false_of_exists ⟨x0, hx0, by rw [hallL x0 hx0, hx0v]; exact one_ne_zero⟩
    have hfix : sameOn (stepL 0 g).shape (stepL 0 (stepL 0 g)).val (stepL 0 g).val = true := by
      refine (sameOn_true_iff _ _ _).mpr ?_
      intro x hx
      rw [stepL_val_one_of_nonpos 0 (le_refl 0) (binaryOn_stepL 0 hbg) x hx, hallL x hx]
    rw [runL_rec, if_neg (by simp [hfalse]), runL_rec, if_pos hfix]
  · have hfalse : sameOn g.shape (stepT 0 g).val g.val = false :=
      sameOn_false_of_exists ⟨x0, hx0, by rw [hallT x0 hx0, hx0v]; exact one_ne_zero⟩
    have hfix : sameOn (stepT 0 g).shape (stepT 0 (stepT 0 g)).val (stepT 0 g).val = true := by
      refine (sameOn_true_iff _ _ _).mpr ?_
      intro x hx
      rw [stepT_val_one_of_nonpos 0 (le_refl 0) (binaryOn_stepT 0 hbg) x hx, hallT x hx]
    rw [runT_rec, if_neg (by simp [hfalse]), runT_rec, if_pos hfix]
  · have hfix : sameOn h.shape (stepL 0 h).val h.val = true := by
      refine (sameOn_true_iff _ _ _).mpr ?_
      intro x hx
      rw [stepL_val_one_of_nonpos 0 (le_refl 0) hbh x hx, hh1 x hx]
    rw [runL_rec, if_pos hfix]
  · have hfix : sameOn h.shape (stepT 0 h).val h.val = true := by
      refine (sameOn_true_iff _ _ _).mpr ?_
      intro x hx
      rw [stepT_val_one_of_nonpos 0 (le_refl 0) hbh x hx, hh1 x hx]
    rw [runT_rec, if_pos hfix]

/-- Witness for C5 at shape [2]: initial [1, 0] converges in two produced
states, initial [1, 1] in one. -/
theorem claim_c5_witness :
    binaryOn (Grid.mk [2] (fun x => if x = [0] then 1 else 0))
  ∧ (∃ x ∈ allIdx (Grid.mk [2] (fun x => if x = [0] then 1 else 0)).shape,
      (Grid.mk [2] (fun x => if x = [0] then 1 else 0)).val x = 0)
  ∧ (∀ x ∈ allIdx (Grid.mk [2] (fun _ => 1)).shape, (Grid.mk [2] (fun _ => 1)).val x = 1)
  ∧ (runL 0 (Grid.mk [2] (fun x => if x = [0] then 1 else 0))
      = [Grid.mk [2] (fun x => if x = [0] then 1 else 0),
         stepL 0 (Grid.mk [2] (fun x => if x = [0] then 1 else 0))]
    ∧ runT 0 (Grid.mk [2] (fun x => if x = [0] then 1 else 0))
      = [Grid.mk [2] (fun x => if x = [0] then 1 else 0),
         stepT 0 (Grid.mk [2] (fun x => if x = [0] then 1 else 0))]
    ∧ (∀ x ∈ allIdx (Grid.mk [2] (fun x => if x = [0] then 1 else 0)).shape,
        (stepL 0 (Grid.mk [2] (fun x => if x = [0] then 1 else 0))).val x = 1)
    ∧ (∀ x ∈ allIdx (Grid.mk [2] (fun x => if x = [0] then 1 else 0)).shape,
        (stepT 0 (Grid.mk [2] (fun x => if x = [0] then 1 else 0))).val x = 1))
  ∧ (runL 0 (Grid.mk [2] (fun _ => 1)) = [Grid.mk [2] (fun _ => 1)]
    ∧ runT 0 (Grid.mk [2] (fun _ => 1)) = [Grid.mk [2] (fun _ => 1)]) :=
  ⟨by unfold binaryOn; decide, by decide, by decide,
    claim_c5 (Grid.mk [2] (fun x => if x = [0] then 1 else 0)) (Grid.mk [2] (fun _ => 1))
      (by unfold binaryOn; decide) (by decide) (by decide)⟩

/-- Counterexample to C4: the generators perform no validation.  With the
negative threshold `-1` and the well-shaped grid [0] of shape (1), both
generators produce a two-state sequence ending in the all-infected state
instead of rejecting; with a zero-size dimension (shape (0)), they produce
the initial state and stop instead of rejecting. -/
theorem claim_c4_counterexample :
    (runL (-1) (Grid.mk [1] (fun _ => 0))).length = 2
  ∧ ((runL (-1) (Grid.mk [1] (fun _ => 0))).getLastD (Grid.mk [1] (fun _ => 0))).val [0] = 1
  ∧ (runT (-1) (Grid.mk [1] (fun _ => 0))).length = 2
  ∧ ((runT (-1) (Grid.mk [1] (fun _ => 0))).getLastD (Grid.mk [1] (fun _ => 0))).val [0] = 1
  ∧ (runL 2 (Grid.mk [0] (fun _ => 0))).length = 1
  ∧ (runT 2 (Grid.mk [0] (fun _ => 0))).length = 1 := by
  have eL1 : runL (-1) (Grid.mk [1] (fun _ => 0))
      = Grid.mk [1] (fun _ => 0) :: runL (-1) (stepL (-1) (Grid.mk [1] (fun _ => 0))) := by
    rw [runL_rec, if_neg (by decide)]
  have eL2 : runL (-1) (stepL (-1) (Grid.mk [1] (fun _ => 0)))
      = [stepL (-1) (Grid.mk [1] (fun _ => 0))] := by
    rw [runL_rec, if_pos (by decide)]
  have eT1 : runT (-1) (Grid.mk [1] (fun _ => 0))
      = Grid.mk [1] (fun _ => 0) :: runT (-1) (stepT (-1) (Grid.mk [1] (fun _ => 0))) := by
    rw [runT_rec, if_neg (by decide)]
  have eT2 : runT (-1) (stepT (-1) (Grid.mk [1] (fun _ => 0)))
      = [stepT (-1) (Grid.mk [1] (fun _ => 0))] := by
    rw [runT_rec, if_pos (by decide)]
  have eL0 : runL 2 (Grid.mk [0] (fun _ => 0)) = [Grid.mk [0] (fun _ => 0)] := by
    rw [runL_rec, if_pos (by decide)]
  have eT0 : runT 2 (Grid.mk [0] (fun _ => 0)) = [Grid.mk [0] (fun _ => 0)] := by
    rw [runT_rec, if_pos (by decide)]
  refine ⟨?_, ?_, ?_, ?_, ?_, ?_⟩
  · rw [eL1, eL2]
    rfl
  · rw [eL1, eL2]
    show (stepL (-1) (Grid.mk [1] (fun _ => 0))).val [0] = 1
    decide
  · rw [eT1, eT2]
    rfl
  · rw [eT1, eT2]
    show (stepT (-1) (Grid.mk [1] (fun _ => 0))).val [0] = 1
    decide
  · rw [eL0]
    rfl
  · rw [eT0]
    rfl

/-- C4 as amended: `spread_lattice` and `spread_torus` validate nothing.
They always begin producing values, emitting the initial state first; a
negative threshold is accepted and makes every cell of a binary grid
infected after one step; a shape with a zero-size dimension is accepted and
yields a sequence consisting of the initial state alone. -/
theorem claim_c4_amended (m : Int) (g h : Grid) (hm : m < 0) (hbg : binaryOn g)
    (hh : 0 ∈ h.shape) :
    ((runL m g).head? = some g ∧ (runT m g).head? = some g)
  ∧ (∀ x ∈ allIdx g.shape, (stepL m g).val x = 1 ∧ (stepT m g).val x = 1)
  ∧ (runL m h = [h] ∧ runT m h = [h]) := by
  have hnil : allIdx h.shape = [] := allIdx_nil_of_zero hh
  have hfixL : sameOn h.shape (stepL m h).val h.val = true := by
    unfold sameOn
    rw [hnil]
    rfl
  have hfixT : sameOn h.shape (stepT m h).val h.val = true := by
    unfold sameOn
    rw [hnil]
    rfl
  refine ⟨⟨runL_head m g, runT_head m g⟩, ?_, ?_, ?_⟩
  · intro x hx
    exact ⟨stepL_val_one_of_nonpos m (le_of_lt hm) hbg x hx,
      stepT_val_one_of_nonpos m (le_of_lt hm) hbg x hx⟩
  · rw [runL_rec, if_pos hfixL]
  · rw [runT_rec, if_pos hfixT]

/-- Witness for the amended C4: threshold -1 with the one-cell grid [0], and
shape (0) for the zero-dimension half. -/
theorem claim_c4_amended_witness :
    (-1 : Int) < 0
  ∧ binaryOn (Grid.mk [1] (fun _ => 0))
  ∧ 0 ∈ (Grid.mk [0] (fun _ => 0)).shape
  ∧ (((runL (-1) (Grid.mk [1] (fun _ => 0))).head? = some (Grid.mk [1] (fun _ => 0))
      ∧ (runT (-1) (Grid.mk [1] (fun _ => 0))).head? = some (Grid.mk [1] (fun _ => 0)))
    ∧ (∀ x ∈ allIdx (Grid.mk [1] (fun _ => 0)).shape,
        (stepL (-1) (Grid.mk [1] (fun _ => 0))).val x = 1
        ∧ (stepT (-1) (Grid.mk [1] (fun _ => 0))).val x = 1)
    ∧ (runL (-1) (Grid.mk [0] (fun _ => 0)) = [Grid.mk [0] (fun _ => 0)]
      ∧ runT (-1) (Grid.mk [0] (fun _ => 0)) = [Grid.mk [0] (fun _ => 0)])) :=
  ⟨by decide, by unfold binaryOn; decide, by decide,
    claim_c4_amended (-1) (Grid.mk [1] (fun _ => 0)) (Grid.mk [0] (fun _ => 0))
      (by decide) (by unfold binaryOn; decide) (by decide)⟩

/-- C8: Scenario A.  On the 1-D bounded grid of shape (5) with initial state
[0,0,1,0,0] and threshold 1, `spread_lattice` produces exactly the three
states [0,0,1,0,0], [0,1,1,1,0], [1,1,1,1,1] in this order, and the next
computed state is elementwise equal to the last produced one (it is detected
internally and never emitted). -/
theorem claim_c8 :
    (runL 1 (Grid.mk [5] (fun x => if x = [2] then 1 else 0))).map
      (fun st => (allIdx st.shape).map st.val)
      = [[0, 0, 1, 0, 0], [0, 1, 1, 1, 0], [1, 1, 1, 1, 1]]
  ∧ sameOn ((runL 1 (Grid.mk [5] (fun x => if x = [2] then 1 else 0))).getLastD
        (Grid.mk [5] (fun x => if x = [2] then 1 else 0))).shape
      (stepL 1 ((runL 1 (Grid.mk [5] (fun x => if x = [2] then 1 else 0))).getLastD
        (Grid.mk [5] (fun x => if x = [2] then 1 else 0)))).val
      ((runL 1 (Grid.mk [5] (fun x => if x = [2] then 1 else 0))).getLastD
        (Grid.mk [5] (fun x => if x = [2] then 1 else 0))).val = true := by
  have e1 : runL 1 (Grid.mk [5] (fun x => if x = [2] then 1 else 0))
      = Grid.mk [5] (fun x => if x = [2] then 1 else 0)
        :: runL 1 (stepL 1 (Grid.mk [5] (fun x => if x = [2] then 1 else 0))) := by
    rw [runL_rec, if_neg (by decide)]
  have e2 : runL 1 (stepL 1 (Grid.mk [5] (fun x => if x = [2] then 1 else 0)))
      = stepL 1 (Grid.mk [5] (fun x => if x = [2] then 1 else 0))
        :: runL 1 (stepL 1 (stepL 1 (Grid.mk [5] (fun x => if x = [2] then 1 else 0)))) := by
    rw [runL_rec, if_neg (by decide)]
  have e3 : runL 1 (stepL 1 (stepL 1 (Grid.mk [5] (fun x => if x = [2] then 1 else 0))))
      = [stepL 1 (stepL 1 (Grid.mk [5] (fun x => if x = [2] then 1 else 0)))] := by
    rw [runL_rec, if_pos (by decide)]
  constructor
  · rw [e1, e2, e3]
    decide
  · rw [e1, e2, e3]
    show sameOn [5] _ _ = true
    decide
